import Mathlib

/-
Shallow embedding of the override synchronization engine of the
`hacs-entity-metadata` repository: the two Home Assistant custom
integrations `entity_metadata` and `entity_overrides`.

Python values parsed from YAML are modelled by the inductive `Yaml`;
Python `dict`s appear as insertion-ordered association lists
`List (String × Yaml)` (Python dict keys are unique, hypotheses state
this where a proof needs it).  The entity registry is an association
list from entity id to a record of the registry-entry fields the code
reads or writes.  File-system effects are modelled by explicit state
records; timestamps are parameters.  `raise ValueError(msg)` is
modelled as a `PyErr` value with `kind := "ValueError"`.
-/

/-- A parsed YAML / Python value. `nullV` is Python `None`. -/
inductive Yaml where
  | nullV
  | boolV (b : Bool)
  | intV (n : Int)
  | strV (s : String)
  | listV (xs : List Yaml)
  | mapV (kvs : List (String × Yaml))

/-- Python truthiness (`bool(v)`): None, False, 0, "", [] and an empty dict
are falsy, everything else is truthy. -/
def Yaml.truthy : Yaml → Bool
  | .nullV => false
  | .boolV b => b
  | .intV n => !(n == 0)
  | .strV s => !s.isEmpty
  | .listV xs => !xs.isEmpty
  | .mapV kvs => !kvs.isEmpty

/-- `isinstance(v, dict)`. -/
def Yaml.isMap : Yaml → Bool
  | .mapV _ => true
  | _ => false

/-- The key/value pairs of a YAML mapping (empty for non-mappings). -/
def Yaml.asMap : Yaml → List (String × Yaml)
  | .mapV kvs => kvs
  | _ => []

mutual
/-- Python structural equality `==` on parsed YAML values. -/
def Yaml.beq : Yaml → Yaml → Bool
  | .nullV, .nullV => true
  | .boolV a, .boolV b => a == b
  | .intV a, .intV b => a == b
  | .strV a, .strV b => a == b
  | .listV a, .listV b => Yaml.beqL a b
  | .mapV a, .mapV b => Yaml.beqM a b
  | _, _ => false
/-- Elementwise `Yaml.beq` on lists. -/
def Yaml.beqL : List Yaml → List Yaml → Bool
  | [], [] => true
  | x :: xs, y :: ys => Yaml.beq x y && Yaml.beqL xs ys
  | _, _ => false
/-- Keywise `Yaml.beq` on mapping entries. -/
def Yaml.beqM : List (String × Yaml) → List (String × Yaml) → Bool
  | [], [] => true
  | (k, v) :: xs, (l, w) :: ys => k == l && Yaml.beq v w && Yaml.beqM xs ys
  | _, _ => false
end

mutual
/-- Python `repr()` of a parsed YAML value (used by `str()` on containers). -/
def Yaml.pyRepr : Yaml → String
  | .nullV => "None"
  | .boolV b => cond b "True" "False"
  | .intV n => toString n
  | .strV s => "'" ++ s ++ "'"
  | .listV xs => "[" ++ String.intercalate ", " (Yaml.pyReprL xs) ++ "]"
  | .mapV kvs => "\x7b" ++ String.intercalate ", " (Yaml.pyReprM kvs) ++ "\x7d"
/-- `repr()` of each element of a list. -/
def Yaml.pyReprL : List Yaml → List String
  | [] => []
  | x :: xs => Yaml.pyRepr x :: Yaml.pyReprL xs
/-- `repr()` of each `key: value` entry of a dict. -/
def Yaml.pyReprM : List (String × Yaml) → List String
  | [] => []
  | (k, v) :: kvs => ("'" ++ k ++ "': " ++ Yaml.pyRepr v) :: Yaml.pyReprM kvs
end

/-- Python `str()` of a parsed YAML value. -/
def Yaml.pyStr : Yaml → String
  | .strV s => s
  | v => v.pyRepr

/-- `d[k]` on a Python dict modelled as an association list (first match). -/
def lookupKV (kvs : List (String × Yaml)) (k : String) : Option Yaml :=
  (kvs.find? (fun p => p.1 == k)).map Prod.snd

/-- `k in d` on a Python dict. -/
def hasKey (kvs : List (String × Yaml)) (k : String) : Bool :=
  kvs.any (fun p => p.1 == k)

/-- `d.get(k)`: the value at `k`, or `None` when absent. -/
def pyGet (kvs : List (String × Yaml)) (k : String) : Yaml :=
  (lookupKV kvs k).getD Yaml.nullV

/-- `k.count "."`: number of domain separators in an entity-id key. -/
def dotCount (s : String) : Nat :=
  s.toList.count '.'

/-- Python string comparison `a <= b`: lexicographic by code point. -/
def charListLe : List Char → List Char → Bool
  | [], _ => true
  | _ :: _, [] => false
  | a :: as, b :: bs =>
    if a < b then true
    else if b < a then false
    else charListLe as bs

/-- Python `a <= b` on strings. -/
def pyStrLe (a b : String) : Bool :=
  charListLe a.toList b.toList

/-- Python `s.startswith(pre)`. -/
def pyStartswith (s pre : String) : Bool :=
  pre.toList.isPrefixOf s.toList

/-- Python `s.endswith(suf)`. -/
def pyEndswith (s suf : String) : Bool :=
  suf.toList.isSuffixOf s.toList

/-- Python `s.lower()` (codepointwise, which covers ASCII ids). -/
def pyLower (s : String) : String :=
  String.mk (s.toList.map Char.toLower)

/-- `_normalize_entities_block` (entity_metadata/__init__.py, lines 245-253):
accept `(entities: ...)` wrappers or a flat `(entity_id: props)` mapping. -/
def _normalize_entities_block (blob : List (String × Yaml)) : List (String × Yaml) :=
  match lookupKV blob "entities" with
  | some (Yaml.mapV m) => m
  | _ => blob.filter (fun p => p.2.isMap && (dotCount p.1 == 1))

/-- `er.RegistryEntryHider`: who hid an entity. -/
inductive RegistryEntryHider where
  | user
  | integration
deriving DecidableEq

/-- `er.RegistryEntryDisabler`: who disabled an entity. -/
inductive RegistryEntryDisabler where
  | user
  | integration
  | config_entry
  | device
  | hass
deriving DecidableEq

/-- The registry-entry fields this engine reads or writes.  `name`, `icon`
and `original_name` are arbitrary Python values (normally `None` or a
string); `area_id` is an area identifier or `None`. -/
structure RegistryEntry where
  name : Yaml
  icon : Yaml
  original_name : Yaml
  hidden_by : Option RegistryEntryHider
  disabled_by : Option RegistryEntryDisabler
  area_id : Option String

/-- The entity registry: entity id to registry entry, unique ids. -/
abbrev Registry := List (String × RegistryEntry)

/-- `ent_reg.async_get(entity_id)`. -/
def Registry.async_get (reg : Registry) (eid : String) : Option RegistryEntry :=
  (reg.find? (fun p => p.1 == eid)).map Prod.snd

/-- The keyword-argument dict passed to `async_update_entity`: each field is
present (`some v`, set the field to `v`) or absent (`none`, leave it). -/
structure Updates where
  name : Option Yaml := none
  icon : Option Yaml := none
  hidden_by : Option (Option RegistryEntryHider) := none
  disabled_by : Option (Option RegistryEntryDisabler) := none
  area_id : Option (Option String) := none

/-- Set each field mentioned in the updates dict, leave the rest. -/
def RegistryEntry.applyUpdates (e : RegistryEntry) (u : Updates) : RegistryEntry :=
  { name := u.name.getD e.name
    icon := u.icon.getD e.icon
    original_name := e.original_name
    hidden_by := u.hidden_by.getD e.hidden_by
    disabled_by := u.disabled_by.getD e.disabled_by
    area_id := u.area_id.getD e.area_id }

/-- `ent_reg.async_update_entity(entity_id, **updates)`. -/
def Registry.async_update_entity (reg : Registry) (eid : String) (u : Updates) : Registry :=
  reg.map (fun p => if p.1 == eid then (p.1, p.2.applyUpdates u) else p)

/-- The area registry collaborator: `async_get_area` is truthy when the
given area id exists; `async_get_area_by_name` returns the id of the area
with the given display name, if any. -/
structure AreaRegistry where
  async_get_area : String → Bool
  async_get_area_by_name : String → Option String

/-- Area resolution in `_apply_overrides` (lines 305-315): a falsy value
clears the area; a string that is an existing area id is used directly;
otherwise look the value up (as `str()`) by area name, unresolvable
values clear the area. -/
def resolveArea (areg : AreaRegistry) (v : Yaml) : Option String :=
  if v.truthy then
    match v with
    | Yaml.strV s => if areg.async_get_area s then some s else areg.async_get_area_by_name s
    | w => areg.async_get_area_by_name w.pyStr
  else none

/-- The update set computed for one found entity in `_apply_overrides`
(lines 287-327), with the `merge=false` reset block folded into each
field: a field is set when its key is in `props`, and additionally reset
(`None`, or the current `area_id` for area) when `merge` is false. -/
def computeUpdates (areg : AreaRegistry) (entry : RegistryEntry)
    (props : List (String × Yaml)) (merge : Bool) : Updates :=
  { name :=
      if hasKey props "name" then
        some (if (pyGet props "name").truthy then pyGet props "name" else Yaml.nullV)
      else if !merge then some Yaml.nullV else none
    icon :=
      if hasKey props "icon" then
        some (if (pyGet props "icon").truthy then pyGet props "icon" else Yaml.nullV)
      else if !merge then some Yaml.nullV else none
    hidden_by :=
      if hasKey props "hidden" then
        some (if (pyGet props "hidden").truthy then some RegistryEntryHider.user else none)
      else if !merge then some none else none
    disabled_by :=
      if hasKey props "disabled" then
        some (if (pyGet props "disabled").truthy then some RegistryEntryDisabler.user else none)
      else if !merge then some none else none
    area_id :=
      if hasKey props "area" then some (resolveArea areg (pyGet props "area"))
      else if !merge then some entry.area_id else none }

/-- A raised Python exception: its class and its message. -/
structure PyErr where
  kind : String
  msg : String
deriving DecidableEq

/-- The message of `raise ValueError` at line 281-283. -/
def notFoundMsg (eid : String) : String :=
  "entity_metadata: import: entity not found: " ++ eid

/-- State of `_apply_overrides` when it returns or raises: the (in-place
mutated) registry, the `async_update_entity` calls made, the two local
counters, and the exception that escaped, if any. -/
structure ApplyOutcome where
  registry : Registry
  calls : List (String × Updates)
  updated : Nat
  skipped : Nat
  error : Option PyErr

/-- The `for entity_id, props in entities_map.items()` loop of
`_apply_overrides` (lines 277-330), as a fold carrying the loop state. -/
def applyGo (areg : AreaRegistry) (merge strict_entities : Bool) :
    Registry → List (String × Updates) → Nat → Nat →
    List (String × List (String × Yaml)) → ApplyOutcome
  | reg, calls, updated, skipped, [] => ⟨reg, calls, updated, skipped, none⟩
  | reg, calls, updated, skipped, (eid, props) :: rest =>
    match reg.async_get eid with
    | none =>
      if strict_entities then
        ⟨reg, calls, updated, skipped + 1, some ⟨"ValueError", notFoundMsg eid⟩⟩
      else
        applyGo areg merge strict_entities reg calls updated (skipped + 1) rest
    | some entry =>
      let u := computeUpdates areg entry props merge
      applyGo areg merge strict_entities
        (reg.async_update_entity eid u) (calls ++ [(eid, u)]) (updated + 1) skipped rest

/-- `_apply_overrides` (entity_metadata/__init__.py, lines 259-332).
Entity property sets are passed as mapping entries (every entities block
produced by this engine, and every flat-shape block accepted by
`_normalize_entities_block`, has mapping-valued entries). -/
def _apply_overrides (reg : Registry) (areg : AreaRegistry)
    (entities_map : List (String × List (String × Yaml)))
    (merge strict_entities : Bool) : ApplyOutcome :=
  applyGo areg merge strict_entities reg [] 0 0 entities_map

/-- `entry.entity_id.partition(".")[0].lower()`: the domain of an
entity id (lines 208-209) — the characters before the first `.`. -/
def domainOf (eid : String) : String :=
  pyLower (String.mk (eid.toList.takeWhile (fun c => !(c == '.'))))

/-- The per-entity sparse property dict built in `_serialize_registry`
(lines 213-223), in the source's insertion order. -/
def entryData (e : RegistryEntry) : List (String × Yaml) :=
  (if e.name.truthy then [("name", e.name)] else []) ++
  (if e.icon.truthy then [("icon", e.icon)] else []) ++
  (if e.hidden_by.isSome then [("hidden", Yaml.boolV true)] else []) ++
  (if e.disabled_by.isSome then [("disabled", Yaml.boolV true)] else [])

/-- The `payload` mapping of `_serialize_registry` (lines 204-226):
domain-filtered entities, included when they carry an override or
`include_all` is set. -/
def serializePayload (reg : Registry) (include_domains : List String)
    (include_all : Bool) : List (String × Yaml) :=
  let domains := include_domains.map pyLower
  reg.filterMap (fun p =>
    if !domains.isEmpty && !(domains.contains (domainOf p.1)) then none
    else if include_all || !(entryData p.2).isEmpty then
      some (p.1, Yaml.mapV (entryData p.2))
    else none)

/-- Timestamp munging of `_serialize_registry` (lines 231-236): force a
trailing `Z` on the UTC isoformat string. -/
def fixTs (ts : String) : String :=
  if pyEndswith ts "+00:00" then String.mk (ts.toList.take (ts.toList.length - 6)) ++ "Z"
  else if pyEndswith ts "Z" then ts
  else ts ++ "Z"

/-- `_serialize_registry` (entity_metadata/__init__.py, lines 195-243).
The wall-clock isoformat timestamp is a parameter. -/
def _serialize_registry (reg : Registry) (include_domains : List String)
    (include_all : Bool) (ts : String) : Yaml :=
  Yaml.mapV
    [("version", Yaml.intV 1),
     ("generated_at", Yaml.strV (fixTs ts)),
     ("entities", Yaml.mapV (serializePayload reg include_domains include_all))]

/-- The message of `raise ValueError` at line 179. -/
def yamlNotMappingMsg (path : String) : String :=
  "YAML at " ++ path ++ " must be a mapping at top level."

/-- `_read_yaml` (entity_metadata/__init__.py, lines 172-181).  The file
system is a parameter: `none` when the path does not exist, otherwise
the parsed YAML value of the file's text (`Yaml.nullV` for an empty or
comment-only file).  A falsy parse is coerced to an empty mapping by
`yaml.safe_load(f) or \x7b\x7d`; a truthy non-mapping raises. -/
def _read_yaml (path : String) (file : Option Yaml) :
    Except PyErr (List (String × Yaml)) :=
  match file with
  | none => Except.ok []
  | some y =>
    let data := if y.truthy then y else Yaml.mapV []
    match data with
    | Yaml.mapV m => Except.ok m
    | _ => Except.error ⟨"ValueError", yamlNotMappingMsg path⟩

/-- Entities block entries handed to `_apply_overrides`: each property
set is taken as a mapping (see `_apply_overrides`). -/
def toEntitiesMap (xs : List (String × Yaml)) :
    List (String × List (String × Yaml)) :=
  xs.map (fun p => (p.1, p.2.asMap))

/-- Outcome of the import service: the returned counts or the escaped
exception, and the registry left behind. -/
structure ImportOutcome where
  result : Except PyErr (Nat × Nat)
  registry : Registry

/-- `_handle_import_service` (entity_metadata/__init__.py, lines 382-403):
read, normalize, apply.  `file` is the content of the resolved input
path (`none` when the path does not exist). -/
def _handle_import_service (reg : Registry) (areg : AreaRegistry)
    (file : Option Yaml) (path : String) (merge strict_entities : Bool) :
    ImportOutcome :=
  match _read_yaml path file with
  | Except.error e => ⟨Except.error e, reg⟩
  | Except.ok blob =>
    let entities_map := _normalize_entities_block blob
    let o := _apply_overrides reg areg (toEntitiesMap entities_map) merge strict_entities
    match o.error with
    | some e => ⟨Except.error e, o.registry⟩
    | none => ⟨Except.ok (o.updated, o.skipped), o.registry⟩

/-- The glob `overrides-*.yaml` of `_prune_backups` (line 159). -/
def globMatch (n : String) : Bool :=
  pyStartswith n "overrides-" && pyEndswith n ".yaml"

/-- `sorted(..., reverse=True)` on backup file names (lexicographically
descending; the fixed-width timestamp naming makes this newest-first).
Python's sort is stable, as is insertion sort. -/
def sortDescStr (l : List String) : List String :=
  l.insertionSort (fun a b => pyStrLe b a = true)

/-- The `for old in files[keep:]` deletion loop with its `try/except pass`
(lines 160-164): attempt each deletion, swallow failures, return the
names actually deleted.  `unlinkOk f` is true when `f.unlink()` succeeds
and false when it raises. -/
def unlinkLoop (unlinkOk : String → Bool) : List String → List String
  | [] => []
  | f :: fs =>
    if unlinkOk f then f :: unlinkLoop unlinkOk fs else unlinkLoop unlinkOk fs

/-- `_prune_backups` (entity_metadata/__init__.py, lines 153-166): keep
only the newest `keep` backups.  `names` are the file names in the
backups directory; the result is the set of names deleted from disk. -/
def _prune_backups (names : List String) (unlinkOk : String → Bool)
    (keep : Int) : List String :=
  if keep ≤ 0 then []
  else unlinkLoop unlinkOk ((sortDescStr (names.filter globMatch)).drop keep.toNat)

/-- The deletion loop of `_prune_backups` (lines 160-164) paired with the
log records it emits.  The loop body is `try: old.unlink()` followed by
a bare `except Exception: pass`: neither branch contains a logging call,
so the emitted record list stays empty whether a deletion succeeds or
raises. -/
def unlinkLoopLog (unlinkOk : String → Bool) :
    List String → List String × List String
  | [] => ([], [])
  | f :: fs =>
    if unlinkOk f then
      ((f :: (unlinkLoopLog unlinkOk fs).1), (unlinkLoopLog unlinkOk fs).2)
    else
      unlinkLoopLog unlinkOk fs

/-- `_prune_backups` observed together with its log output: the names it
deletes and the records it logs while deleting. -/
def prune_backups_withLog (names : List String) (unlinkOk : String → Bool)
    (keep : Int) : List String × List String :=
  if keep ≤ 0 then ([], [])
  else unlinkLoopLog unlinkOk ((sortDescStr (names.filter globMatch)).drop keep.toNat)

/-- File-system state of the entity_metadata storage directory: the
override file's parsed content (if the file exists) and the backup
directory's files. -/
structure MetaFS where
  overridesFile : Option Yaml
  backups : List (String × Yaml)

/-- The backup file name `overrides-(stamp).yaml` (line 373). -/
def backupName (stamp : String) : String :=
  "overrides-" ++ stamp ++ ".yaml"

/-- Deletion of pruned backups from the backups directory. -/
def pruneFS (backups : List (String × Yaml)) (unlinkOk : String → Bool)
    (keep : Int) : List (String × Yaml) :=
  let deleted := _prune_backups (backups.map Prod.fst) unlinkOk keep
  backups.filter (fun p => !(deleted.contains p.1))

/-- `_handle_export_service` (entity_metadata/__init__.py, lines 352-380):
serialize the registry, optionally overwrite the override file with the
new document, optionally write the same new document as a timestamped
backup and prune old backups.  `ts` and `stamp` are the two wall-clock
reads; `keep` is the configured `backup_retention`. -/
def _handle_export_service (reg : Registry) (fs : MetaFS)
    (write_overrides write_backup include_all : Bool)
    (include_domains : List String) (ts stamp : String) (keep : Int)
    (unlinkOk : String → Bool) : MetaFS :=
  let blob := _serialize_registry reg include_domains include_all ts
  let fs1 :=
    if write_overrides then { fs with overridesFile := some blob } else fs
  if write_backup then
    let fs2 := { fs1 with backups := fs1.backups ++ [(backupName stamp, blob)] }
    { fs2 with backups := pruneFS fs2.backups unlinkOk keep }
  else fs1

/-- The per-entity override dict of `export_overrides`
(entity_overrides/__init__.py, lines 80-86). -/
def ovEntryData (e : RegistryEntry) : List (String × Yaml) :=
  (if e.name.truthy && e.original_name.truthy && !(Yaml.beq e.name e.original_name)
   then [("friendly_name", e.name)] else []) ++
  (if e.hidden_by.isSome then [("hidden", Yaml.boolV true)] else []) ++
  (if e.disabled_by.isSome then [("enabled", Yaml.boolV false)] else [])

/-- The `data` mapping of `export_overrides` (lines 77-89): entities with
at least one override. -/
def serialize_ov (reg : Registry) : List (String × List (String × Yaml)) :=
  reg.filterMap (fun p =>
    if (ovEntryData p.2).isEmpty then none else some (p.1, ovEntryData p.2))

/-- File-system state of the entity_overrides storage: the export file's
parsed content (if it exists) and the backup directory's files. -/
structure OverridesFS where
  exportFile : Option Yaml
  backups : List (String × Yaml)

/-- The `os.rename` archive step of `export_overrides` (lines 91-95): move
the existing export file into the backup directory under a timestamped
name. -/
def archiveStep (fs : OverridesFS) (ts : String) : OverridesFS :=
  match fs.exportFile with
  | none => fs
  | some c => ⟨none, fs.backups ++ [("overrides." ++ ts ++ ".yaml", c)]⟩

/-- The backup-name filter of `export_overrides` (lines 97-100). -/
def ovBackupMatch (n : String) : Bool :=
  pyStartswith n "overrides." && pyEndswith n ".yaml"

/-- `sorted(...)` ascending on backup file names. -/
def sortAscStr (l : List String) : List String :=
  l.insertionSort (fun a b => pyStrLe a b = true)

/-- The `while len(backups) > max_backups` rotation loop of
`export_overrides` (lines 97-107): attempt to delete the oldest names
beyond the retention count, swallowing per-file failures.  Returns the
names actually deleted. -/
def ovRotateDeleted (names : List String) (unlinkOk : String → Bool)
    (max_backups : Nat) : List String :=
  let sortedNames := sortAscStr (names.filter ovBackupMatch)
  unlinkLoop unlinkOk (sortedNames.take (sortedNames.length - max_backups))

/-- Rotation applied to the backup directory state. -/
def rotateStep (fs : OverridesFS) (unlinkOk : String → Bool)
    (max_backups : Nat) : OverridesFS :=
  let deleted := ovRotateDeleted (fs.backups.map Prod.fst) unlinkOk max_backups
  { fs with backups := fs.backups.filter (fun p => !(deleted.contains p.1)) }

/-- The final write of `export_overrides` (lines 109-114): dump
`(entity_overrides: data)` to the export file when `data` is non-empty,
otherwise write nothing. -/
def writeStep (fs : OverridesFS)
    (data : List (String × List (String × Yaml))) : OverridesFS :=
  if data.isEmpty then fs
  else
    let doc := Yaml.mapV
      [("entity_overrides", Yaml.mapV (data.map (fun p => (p.1, Yaml.mapV p.2))))]
    { fs with exportFile := some doc }

/-- `export_overrides` (entity_overrides/__init__.py, lines 75-114):
serialize, archive the previous export file (if present) and rotate
backups, then write the new export file. -/
def export_overrides (reg : Registry) (fs : OverridesFS) (ts : String)
    (unlinkOk : String → Bool) (max_backups : Nat) : OverridesFS :=
  let data := serialize_ov reg
  let fs1 :=
    match fs.exportFile with
    | some _ => rotateStep (archiveStep fs ts) unlinkOk max_backups
    | none => fs
  writeStep fs1 data

/-- An area registry with no areas, for concrete check inputs. -/
def aregEmpty : AreaRegistry :=
  ⟨fun _ => false, fun _ => none⟩

/-- The document `_handle_export_service` writes for an empty registry at
timestamps `t`/`s`. -/
def newDocCex : Yaml :=
  Yaml.mapV
    [("version", Yaml.intV 1), ("generated_at", Yaml.strV "tZ"),
     ("entities", Yaml.mapV [])]

/-- A registry entry hidden by an integration (not by the user), for
concrete check inputs. -/
def entryCex : RegistryEntry :=
  ⟨Yaml.nullV, Yaml.nullV, Yaml.nullV, some RegistryEntryHider.integration,
   none, none⟩

/-- A one-entity registry holding `entryCex`, for concrete check inputs. -/
def regCex : Registry :=
  [("light.x", entryCex)]

/-- A parsed document with an `entities` key holding a non-mapping value
next to a flat entity entry, for concrete check inputs. -/
def blobCex : List (String × Yaml) :=
  [("entities", Yaml.strV "x"), ("light.a", Yaml.mapV [])]

/-- A registry whose only entity carries a user-set name and a user-set
hidden marker, for concrete check inputs. -/
def regUser : Registry :=
  [("light.x",
    ⟨Yaml.strV "Nm", Yaml.nullV, Yaml.nullV, some RegistryEntryHider.user,
     none, some "ar"⟩)]

/-- A one-entry entities mapping over a known id, for concrete check
inputs. -/
def preW : List (String × List (String × Yaml)) :=
  [("light.x", [])]

/-- A one-entry entities mapping naming a known id with a name override,
for concrete check inputs. -/
def postW : List (String × List (String × Yaml)) :=
  [("light.x", [("name", Yaml.strV "N")])]

/-- A parsed document in the wrapper shape, for concrete check inputs. -/
def blobW : List (String × Yaml) :=
  [("entities", Yaml.mapV [("light.a", Yaml.mapV [])])]

/-- Backup-directory file names, for concrete check inputs. -/
def namesW : List String :=
  ["overrides-1.yaml", "overrides-3.yaml", "overrides-2.yaml", "x.txt"]

/-- A retention count of two, for concrete check inputs. -/
def keep02 : Int := 2

/-- An entity_overrides storage state with a prior export file and no
backups, for concrete check inputs. -/
def ofsW : OverridesFS := ⟨some (Yaml.strV "old"), []⟩


theorem Registry.get_none_iff : ∀ (reg : Registry) (eid : String),
    Registry.async_get reg eid = none ↔ eid ∉ reg.map Prod.fst := by
  intro reg eid
  induction reg with
  | nil => simp [Registry.async_get]
  | cons q reg ih =>
    by_cases hk : q.1 = eid
    · simp only [Registry.async_get]
      rw [List.find?_cons_of_pos _ (by simp [hk])]
      simp [hk]
    · simp only [Registry.async_get] at ih ⊢
      rw [List.find?_cons_of_neg _ (by simp [hk])]
      simp only [List.map_cons, List.mem_cons]
      rw [ih]
      constructor
      · intro h hc
        rcases hc with hc | hc
        · exact hk hc.symm
        · exact h hc
      · intro h hc
        exact h (Or.inr hc)

theorem Registry.get_some_of_mem : ∀ (reg : Registry) {eid : String} {e : RegistryEntry},
    (reg.map Prod.fst).Nodup → (eid, e) ∈ reg → Registry.async_get reg eid = some e := by
  intro reg
  induction reg with
  | nil => intro eid e _ hm; cases hm
  | cons q reg ih =>
    intro eid e hnd hm
    simp only [List.map_cons, List.nodup_cons] at hnd
    rcases List.mem_cons.mp hm with hq | htail
    · subst hq
      simp only [Registry.async_get]
      rw [List.find?_cons_of_pos _ (by simp)]
      rfl
    · have hne : ¬(q.1 = eid) := by
        intro hk
        exact hnd.1 (hk ▸ List.mem_map.mpr ⟨(eid, e), htail, rfl⟩)
      simp only [Registry.async_get]
      rw [List.find?_cons_of_neg _ (by simp [hne])]
      exact ih hnd.2 htail

theorem Registry.get_mem : ∀ (reg : Registry) {eid : String} {e : RegistryEntry},
    Registry.async_get reg eid = some e → (eid, e) ∈ reg := by
  intro reg
  induction reg with
  | nil => intro eid e h; simp [Registry.async_get] at h
  | cons q reg ih =>
    intro eid e h
    by_cases hk : q.1 = eid
    · simp only [Registry.async_get] at h
      rw [List.find?_cons_of_pos _ (by simp [hk])] at h
      have he : q.2 = e := by simpa using h
      have : q = (eid, e) := by
        obtain ⟨a, b⟩ := q
        simp only at hk he
        rw [hk, he]
      exact this ▸ List.mem_cons_self q reg
    · simp only [Registry.async_get] at h
      rw [List.find?_cons_of_neg _ (by simp [hk])] at h
      exact List.mem_cons_of_mem _ (ih h)

theorem Registry.keys_update : ∀ (reg : Registry) (eid : String) (u : Updates),
    (Registry.async_update_entity reg eid u).map Prod.fst = reg.map Prod.fst := by
  intro reg eid u
  unfold Registry.async_update_entity
  rw [List.map_map]
  apply List.map_congr_left
  intro p _
  by_cases hk : p.1 = eid
  · simp [hk]
  · simp [hk]

theorem Registry.get_update_self : ∀ (reg : Registry) {eid : String} {e : RegistryEntry} (u : Updates),
    Registry.async_get reg eid = some e →
    Registry.async_get (Registry.async_update_entity reg eid u) eid
      = some (RegistryEntry.applyUpdates e u) := by
  intro reg
  induction reg with
  | nil => intro eid e u h; simp [Registry.async_get] at h
  | cons q reg ih =>
    intro eid e u h
    by_cases hk : q.1 = eid
    · simp only [Registry.async_get] at h
      rw [List.find?_cons_of_pos _ (by simp [hk])] at h
      have he : q.2 = e := by simpa using h
      show Registry.async_get
        ((if q.1 == eid then (q.1, RegistryEntry.applyUpdates q.2 u) else q)
          :: Registry.async_update_entity reg eid u) eid = _
      rw [if_pos (by simp [hk])]
      simp only [Registry.async_get]
      rw [List.find?_cons_of_pos _ (by simp [hk])]
      rw [he]
      rfl
    · simp only [Registry.async_get] at h
      rw [List.find?_cons_of_neg _ (by simp [hk])] at h
      have hrec := ih u h
      show Registry.async_get
        ((if q.1 == eid then (q.1, RegistryEntry.applyUpdates q.2 u) else q)
          :: Registry.async_update_entity reg eid u) eid = _
      rw [if_neg (by simp [hk])]
      simp only [Registry.async_get] at hrec ⊢
      rw [List.find?_cons_of_neg _ (by simp [hk])]
      exact hrec

theorem Registry.update_eq_self : ∀ (reg : Registry) (eid : String) (u : Updates),
    (∀ p ∈ reg, p.1 = eid → RegistryEntry.applyUpdates p.2 u = p.2) →
    Registry.async_update_entity reg eid u = reg := by
  intro reg eid u
  induction reg with
  | nil => intro _; rfl
  | cons q reg ih =>
    intro h
    show (if q.1 == eid then (q.1, RegistryEntry.applyUpdates q.2 u) else q)
        :: Registry.async_update_entity reg eid u = q :: reg
    rw [ih (fun p hp hk => h p (List.mem_cons_of_mem _ hp) hk)]
    by_cases hk : q.1 = eid
    · rw [if_pos (by simp [hk]), h q (List.mem_cons_self _ _) hk]
    · rw [if_neg (by simp [hk])]

theorem applyGo_nil {areg : AreaRegistry} {m st : Bool} {reg : Registry}
    {calls : List (String × Updates)} {u s : Nat} :
    applyGo areg m st reg calls u s [] = ⟨reg, calls, u, s, none⟩ := rfl

theorem applyGo_cons_missing_strict {areg : AreaRegistry} {m : Bool} {reg : Registry}
    {calls : List (String × Updates)} {u s : Nat} {eid : String}
    {props : List (String × Yaml)} {rest : List (String × List (String × Yaml))}
    (hget : Registry.async_get reg eid = none) :
    applyGo areg m true reg calls u s ((eid, props) :: rest)
      = ⟨reg, calls, u, s + 1, some ⟨"ValueError", notFoundMsg eid⟩⟩ := by
  simp [applyGo, hget]

theorem applyGo_cons_missing_lenient {areg : AreaRegistry} {m : Bool} {reg : Registry}
    {calls : List (String × Updates)} {u s : Nat} {eid : String}
    {props : List (String × Yaml)} {rest : List (String × List (String × Yaml))}
    (hget : Registry.async_get reg eid = none) :
    applyGo areg m false reg calls u s ((eid, props) :: rest)
      = applyGo areg m false reg calls u (s + 1) rest := by
  simp [applyGo, hget]

theorem applyGo_cons_found {areg : AreaRegistry} {m st : Bool} {reg : Registry}
    {calls : List (String × Updates)} {u s : Nat} {eid : String} {e : RegistryEntry}
    {props : List (String × Yaml)} {rest : List (String × List (String × Yaml))}
    (hget : Registry.async_get reg eid = some e) :
    applyGo areg m st reg calls u s ((eid, props) :: rest)
      = applyGo areg m st
          (Registry.async_update_entity reg eid (computeUpdates areg e props m))
          (calls ++ [(eid, computeUpdates areg e props m)]) (u + 1) s rest := by
  simp [applyGo, hget]

theorem applyGo_append (areg : AreaRegistry) (m st : Bool) :
    ∀ (xs ys : List (String × List (String × Yaml))) (reg : Registry)
      (calls : List (String × Updates)) (u s : Nat),
    applyGo areg m st reg calls u s (xs ++ ys)
      = (if (applyGo areg m st reg calls u s xs).error = none then
           applyGo areg m st (applyGo areg m st reg calls u s xs).registry
             (applyGo areg m st reg calls u s xs).calls
             (applyGo areg m st reg calls u s xs).updated
             (applyGo areg m st reg calls u s xs).skipped ys
         else applyGo areg m st reg calls u s xs) := by
  intro xs
  induction xs with
  | nil => intro ys reg calls u s; simp [applyGo_nil]
  | cons x xs ih =>
    intro ys reg calls u s
    rcases x with ⟨eid, props⟩
    rw [List.cons_append]
    cases hget : Registry.async_get reg eid with
    | none =>
      cases st with
      | true =>
        rw [applyGo_cons_missing_strict hget, applyGo_cons_missing_strict hget]
        simp
      | false =>
        rw [applyGo_cons_missing_lenient hget, applyGo_cons_missing_lenient hget]
        exact ih ys reg calls u (s + 1)
    | some e =>
      rw [applyGo_cons_found hget, applyGo_cons_found hget]
      exact ih ys _ _ (u + 1) s

theorem applyGo_keys (areg : AreaRegistry) (m st : Bool) :
    ∀ (xs : List (String × List (String × Yaml))) (reg : Registry)
      (calls : List (String × Updates)) (u s : Nat),
    (applyGo areg m st reg calls u s xs).registry.map Prod.fst = reg.map Prod.fst := by
  intro xs
  induction xs with
  | nil => intro reg calls u s; simp [applyGo_nil]
  | cons x xs ih =>
    intro reg calls u s
    rcases x with ⟨eid, props⟩
    cases hget : Registry.async_get reg eid with
    | none =>
      cases st with
      | true => rw [applyGo_cons_missing_strict hget]
      | false => rw [applyGo_cons_missing_lenient hget]; exact ih reg calls u (s + 1)
    | some e =>
      rw [applyGo_cons_found hget, ih, Registry.keys_update]

theorem applyGo_skipped_add (areg : AreaRegistry) (m st : Bool) :
    ∀ (xs : List (String × List (String × Yaml))) (reg : Registry)
      (calls : List (String × Updates)) (u s : Nat),
    applyGo areg m st reg calls u (s + 1) xs
      = ⟨(applyGo areg m st reg calls u s xs).registry,
         (applyGo areg m st reg calls u s xs).calls,
         (applyGo areg m st reg calls u s xs).updated,
         (applyGo areg m st reg calls u s xs).skipped + 1,
         (applyGo areg m st reg calls u s xs).error⟩ := by
  intro xs
  induction xs with
  | nil => intro reg calls u s; simp [applyGo_nil]
  | cons x xs ih =>
    intro reg calls u s
    rcases x with ⟨eid, props⟩
    cases hget : Registry.async_get reg eid with
    | none =>
      cases st with
      | true =>
        rw [applyGo_cons_missing_strict hget, applyGo_cons_missing_strict hget]
      | false =>
        rw [applyGo_cons_missing_lenient hget, applyGo_cons_missing_lenient hget]
        exact ih reg calls u (s + 1)
    | some e =>
      rw [applyGo_cons_found hget, applyGo_cons_found hget]
      exact ih _ _ (u + 1) s

theorem applyGo_found_strict_any (areg : AreaRegistry) (m st : Bool) :
    ∀ (xs : List (String × List (String × Yaml))) (reg : Registry)
      (calls : List (String × Updates)) (u s : Nat),
    (∀ q ∈ xs, q.1 ∈ reg.map Prod.fst) →
    applyGo areg m st reg calls u s xs = applyGo areg m true reg calls u s xs := by
  intro xs
  induction xs with
  | nil => intro reg calls u s _; rfl
  | cons x xs ih =>
    intro reg calls u s hall
    rcases x with ⟨eid, props⟩
    cases hget : Registry.async_get reg eid with
    | none =>
      exact absurd (hall (eid, props) (List.mem_cons_self _ _))
        ((Registry.get_none_iff reg eid).mp hget)
    | some e =>
      rw [applyGo_cons_found hget, applyGo_cons_found hget]
      apply ih
      intro q hq
      rw [Registry.keys_update]
      exact hall q (List.mem_cons_of_mem _ hq)

theorem applyGo_found_error_none (areg : AreaRegistry) (m st : Bool) :
    ∀ (xs : List (String × List (String × Yaml))) (reg : Registry)
      (calls : List (String × Updates)) (u s : Nat),
    (∀ q ∈ xs, q.1 ∈ reg.map Prod.fst) →
    (applyGo areg m st reg calls u s xs).error = none := by
  intro xs
  induction xs with
  | nil => intro reg calls u s _; rfl
  | cons x xs ih =>
    intro reg calls u s hall
    rcases x with ⟨eid, props⟩
    cases hget : Registry.async_get reg eid with
    | none =>
      exact absurd (hall (eid, props) (List.mem_cons_self _ _))
        ((Registry.get_none_iff reg eid).mp hget)
    | some e =>
      rw [applyGo_cons_found hget]
      apply ih
      intro q hq
      rw [Registry.keys_update]
      exact hall q (List.mem_cons_of_mem _ hq)

/-- C7: for every import whose resolved input path does not exist on the
file system, the import succeeds with updated=0 and skipped=0 and
performs no registry mutation. -/
theorem C7_import_missing_file_noop (reg : Registry) (areg : AreaRegistry)
    (path : String) (merge strict_entities : Bool) :
    _handle_import_service reg areg none path merge strict_entities
      = ⟨Except.ok (0, 0), reg⟩ := rfl

/-- C9: importing an existing file whose YAML parses to null yields an
empty mapping at the read step (no not-a-mapping error) and the import
completes successfully with updated=0 and skipped=0. -/
theorem C9_import_null_yaml_noop (reg : Registry) (areg : AreaRegistry)
    (path : String) (merge strict_entities : Bool) :
    _read_yaml path (some Yaml.nullV) = Except.ok [] ∧
    _handle_import_service reg areg (some Yaml.nullV) path merge strict_entities
      = ⟨Except.ok (0, 0), reg⟩ :=
  ⟨rfl, rfl⟩

/-- C1 counterexample: with a prior override file (content `"old"`) and no
backups, an export writing both the override file and a backup leaves the
override file and the only backup holding the freshly serialized
document, which differs from the prior content — the prior state is
preserved nowhere. -/
theorem C1_cex_export_destroys_prior :
    (_handle_export_service [] ⟨some (Yaml.strV "old"), []⟩ true true false [] "t" "s" 7
        (fun _ => true)).overridesFile = some newDocCex ∧
    (_handle_export_service [] ⟨some (Yaml.strV "old"), []⟩ true true false [] "t" "s" 7
        (fun _ => true)).backups = [("overrides-s.yaml", newDocCex)] ∧
    Yaml.strV "old" ≠ newDocCex :=
  ⟨rfl, rfl, by simp [newDocCex]⟩

/-- C2 counterexample: serializing `regCex` (hidden_by = integration) and
applying the document back with merge=true rewrites hidden_by to user,
so a field changes. -/
theorem C2_cex_roundtrip_changes_hidden_by :
    (Registry.async_get (_apply_overrides regCex aregEmpty
        (toEntitiesMap (_normalize_entities_block
          (Yaml.asMap (_serialize_registry regCex [] false "t")))) true false).registry
        "light.x").map RegistryEntry.hidden_by
      = some (some RegistryEntryHider.user) ∧
    (Registry.async_get regCex "light.x").map RegistryEntry.hidden_by
      = some (some RegistryEntryHider.integration) ∧
    some (some RegistryEntryHider.user) ≠ some (some RegistryEntryHider.integration) :=
  ⟨rfl, rfl, by decide⟩

/-- C5 counterexample: a top-level mapping with an `entities` key holding a
non-mapping value is normalized by the flat-shape filter, not by taking
the `entities` value. -/
theorem C5_cex_entities_key_non_mapping :
    lookupKV blobCex "entities" = some (Yaml.strV "x") ∧
    _normalize_entities_block blobCex = [("light.a", Yaml.mapV [])] ∧
    lookupKV blobCex "entities"
      ≠ some (Yaml.mapV (_normalize_entities_block blobCex)) :=
  ⟨rfl, rfl, by
    intro h
    rw [show lookupKV blobCex "entities" = some (Yaml.strV "x") from rfl] at h
    rw [show _normalize_entities_block blobCex = [("light.a", Yaml.mapV [])] from rfl] at h
    simp at h⟩

/-- C8 counterexample: a falsy non-mapping top level (an empty YAML list)
does not raise but is coerced to an empty mapping, and the two fatal
conditions both surface as the same exception kind, `ValueError` —
they are not different error kinds. -/
theorem C8_cex_same_kind_and_falsy_non_mapping :
    _read_yaml "overrides.yaml" (some (Yaml.listV [])) = Except.ok [] ∧
    _read_yaml "overrides.yaml" (some (Yaml.listV [Yaml.intV 1]))
      = Except.error ⟨"ValueError", yamlNotMappingMsg "overrides.yaml"⟩ ∧
    (_apply_overrides [] aregEmpty [("light.a", [])] true true).error
      = some ⟨"ValueError", notFoundMsg "light.a"⟩ ∧
    (PyErr.mk "ValueError" (yamlNotMappingMsg "overrides.yaml")).kind
      = (PyErr.mk "ValueError" (notFoundMsg "light.a")).kind :=
  ⟨rfl, rfl, rfl, rfl⟩

theorem apply_single_found (reg : Registry) (areg : AreaRegistry) (eid : String)
    (e : RegistryEntry) (props : List (String × Yaml)) (merge strict : Bool)
    (h : Registry.async_get reg eid = some e) :
    Registry.async_get (_apply_overrides reg areg [(eid, props)] merge strict).registry eid
      = some (RegistryEntry.applyUpdates e (computeUpdates areg e props merge)) := by
  unfold _apply_overrides
  rw [show [(eid, props)] = (eid, props) :: [] from rfl, applyGo_cons_found h, applyGo_nil]
  exact Registry.get_update_self reg _ h

/-- C4: for an entity found in the registry, applying with merge=false
resets name, icon, hidden_by and disabled_by to None whenever the
corresponding property is absent from its props, while an absent area
leaves the area assignment unchanged; applying with merge=true leaves
properties absent from props untouched. -/
theorem C4_merge_replace_semantics (reg : Registry) (areg : AreaRegistry)
    (eid : String) (e : RegistryEntry) (props : List (String × Yaml)) (strict : Bool)
    (h : Registry.async_get reg eid = some e) :
    (hasKey props "name" = false →
      (Registry.async_get (_apply_overrides reg areg [(eid, props)] false strict).registry
        eid).map RegistryEntry.name = some Yaml.nullV ∧
      (Registry.async_get (_apply_overrides reg areg [(eid, props)] true strict).registry
        eid).map RegistryEntry.name = some e.name) ∧
    (hasKey props "icon" = false →
      (Registry.async_get (_apply_overrides reg areg [(eid, props)] false strict).registry
        eid).map RegistryEntry.icon = some Yaml.nullV ∧
      (Registry.async_get (_apply_overrides reg areg [(eid, props)] true strict).registry
        eid).map RegistryEntry.icon = some e.icon) ∧
    (hasKey props "hidden" = false →
      (Registry.async_get (_apply_overrides reg areg [(eid, props)] false strict).registry
        eid).map RegistryEntry.hidden_by = some none ∧
      (Registry.async_get (_apply_overrides reg areg [(eid, props)] true strict).registry
        eid).map RegistryEntry.hidden_by = some e.hidden_by) ∧
    (hasKey props "disabled" = false →
      (Registry.async_get (_apply_overrides reg areg [(eid, props)] false strict).registry
        eid).map RegistryEntry.disabled_by = some none ∧
      (Registry.async_get (_apply_overrides reg areg [(eid, props)] true strict).registry
        eid).map RegistryEntry.disabled_by = some e.disabled_by) ∧
    (hasKey props "area" = false →
      (Registry.async_get (_apply_overrides reg areg [(eid, props)] false strict).registry
        eid).map RegistryEntry.area_id = some e.area_id ∧
      (Registry.async_get (_apply_overrides reg areg [(eid, props)] true strict).registry
        eid).map RegistryEntry.area_id = some e.area_id) := by
  rw [apply_single_found reg areg eid e props false strict h,
      apply_single_found reg areg eid e props true strict h]
  refine ⟨?_, ?_, ?_, ?_, ?_⟩ <;>
    intro hk <;>
    constructor <;>
    simp [computeUpdates, RegistryEntry.applyUpdates, hk]

/-- Witness for C4: the merge/replace field semantics evaluated at a
concrete one-entity registry with an empty property set. -/
theorem C4_witness :
    Registry.async_get regCex "light.x" = some entryCex ∧
    ((hasKey [] "name" = false →
      (Registry.async_get (_apply_overrides regCex aregEmpty [("light.x", [])] false
        false).registry "light.x").map RegistryEntry.name = some Yaml.nullV ∧
      (Registry.async_get (_apply_overrides regCex aregEmpty [("light.x", [])] true
        false).registry "light.x").map RegistryEntry.name = some entryCex.name) ∧
    (hasKey [] "icon" = false →
      (Registry.async_get (_apply_overrides regCex aregEmpty [("light.x", [])] false
        false).registry "light.x").map RegistryEntry.icon = some Yaml.nullV ∧
      (Registry.async_get (_apply_overrides regCex aregEmpty [("light.x", [])] true
        false).registry "light.x").map RegistryEntry.icon = some entryCex.icon) ∧
    (hasKey [] "hidden" = false →
      (Registry.async_get (_apply_overrides regCex aregEmpty [("light.x", [])] false
        false).registry "light.x").map RegistryEntry.hidden_by = some none ∧
      (Registry.async_get (_apply_overrides regCex aregEmpty [("light.x", [])] true
        false).registry "light.x").map RegistryEntry.hidden_by = some entryCex.hidden_by) ∧
    (hasKey [] "disabled" = false →
      (Registry.async_get (_apply_overrides regCex aregEmpty [("light.x", [])] false
        false).registry "light.x").map RegistryEntry.disabled_by = some none ∧
      (Registry.async_get (_apply_overrides regCex aregEmpty [("light.x", [])] true
        false).registry "light.x").map RegistryEntry.disabled_by = some entryCex.disabled_by) ∧
    (hasKey [] "area" = false →
      (Registry.async_get (_apply_overrides regCex aregEmpty [("light.x", [])] false
        false).registry "light.x").map RegistryEntry.area_id = some entryCex.area_id ∧
      (Registry.async_get (_apply_overrides regCex aregEmpty [("light.x", [])] true
        false).registry "light.x").map RegistryEntry.area_id = some entryCex.area_id)) :=
  ⟨rfl, C4_merge_replace_semantics regCex aregEmpty "light.x" entryCex [] false rfl⟩

/-- C3: when an entities mapping contains an unknown entity id (after a
prefix of known ids), apply under strict_entities=true increments the
skipped counter and fails with the typed entity-not-found ValueError,
leaving the updates already applied in place and processing none of the
remaining entries; under strict_entities=false it increments skipped and
processes the remaining entries exactly as if the unknown entry were
absent. -/
theorem C3_strict_abort_lenient_continue (reg : Registry) (areg : AreaRegistry)
    (pre post : List (String × List (String × Yaml))) (eid : String)
    (props : List (String × Yaml)) (merge : Bool)
    (hpre : ∀ q ∈ pre, q.1 ∈ reg.map Prod.fst)
    (hmiss : Registry.async_get reg eid = none) :
    ((_apply_overrides reg areg (pre ++ (eid, props) :: post) merge true).error
        = some ⟨"ValueError", notFoundMsg eid⟩ ∧
      (_apply_overrides reg areg (pre ++ (eid, props) :: post) merge true).registry
        = (_apply_overrides reg areg pre merge true).registry ∧
      (_apply_overrides reg areg (pre ++ (eid, props) :: post) merge true).calls
        = (_apply_overrides reg areg pre merge true).calls ∧
      (_apply_overrides reg areg (pre ++ (eid, props) :: post) merge true).updated
        = (_apply_overrides reg areg pre merge true).updated ∧
      (_apply_overrides reg areg (pre ++ (eid, props) :: post) merge true).skipped
        = (_apply_overrides reg areg pre merge true).skipped + 1) ∧
    _apply_overrides reg areg (pre ++ (eid, props) :: post) merge false
      = { _apply_overrides reg areg (pre ++ post) merge false with
          skipped := (_apply_overrides reg areg (pre ++ post) merge false).skipped + 1 } := by
  have hoerrT : (applyGo areg merge true reg [] 0 0 pre).error = none :=
    applyGo_found_error_none areg merge true pre reg [] 0 0 hpre
  have hoerrF : (applyGo areg merge false reg [] 0 0 pre).error = none :=
    applyGo_found_error_none areg merge false pre reg [] 0 0 hpre
  have hmissT :
      Registry.async_get (applyGo areg merge true reg [] 0 0 pre).registry eid = none := by
    rw [Registry.get_none_iff, applyGo_keys]
    exact (Registry.get_none_iff reg eid).mp hmiss
  have hmissF :
      Registry.async_get (applyGo areg merge false reg [] 0 0 pre).registry eid = none := by
    rw [Registry.get_none_iff, applyGo_keys]
    exact (Registry.get_none_iff reg eid).mp hmiss
  constructor
  · simp only [_apply_overrides]
    rw [applyGo_append areg merge true pre ((eid, props) :: post) reg [] 0 0,
        if_pos hoerrT, applyGo_cons_missing_strict hmissT]
    exact ⟨rfl, rfl, rfl, rfl, rfl⟩
  · simp only [_apply_overrides]
    rw [applyGo_append areg merge false pre ((eid, props) :: post) reg [] 0 0,
        if_pos hoerrF, applyGo_cons_missing_lenient hmissF,
        applyGo_skipped_add,
        applyGo_append areg merge false pre post reg [] 0 0, if_pos hoerrF]

/-- Witness for C3: strict abort and lenient continue evaluated at a
concrete registry and entities mapping with an unknown middle entry. -/
theorem C3_witness :
    (∀ q ∈ preW, q.1 ∈ regCex.map Prod.fst) ∧
    Registry.async_get regCex "miss.z" = none ∧
    (((_apply_overrides regCex aregEmpty (preW ++ ("miss.z", []) :: postW) true true).error
        = some ⟨"ValueError", notFoundMsg "miss.z"⟩ ∧
      (_apply_overrides regCex aregEmpty (preW ++ ("miss.z", []) :: postW) true true).registry
        = (_apply_overrides regCex aregEmpty preW true true).registry ∧
      (_apply_overrides regCex aregEmpty (preW ++ ("miss.z", []) :: postW) true true).calls
        = (_apply_overrides regCex aregEmpty preW true true).calls ∧
      (_apply_overrides regCex aregEmpty (preW ++ ("miss.z", []) :: postW) true true).updated
        = (_apply_overrides regCex aregEmpty preW true true).updated ∧
      (_apply_overrides regCex aregEmpty (preW ++ ("miss.z", []) :: postW) true true).skipped
        = (_apply_overrides regCex aregEmpty preW true true).skipped + 1) ∧
    _apply_overrides regCex aregEmpty (preW ++ ("miss.z", []) :: postW) true false
      = { _apply_overrides regCex aregEmpty (preW ++ postW) true false with
          skipped := (_apply_overrides regCex aregEmpty (preW ++ postW) true false).skipped + 1 }) :=
  ⟨by decide, rfl,
   C3_strict_abort_lenient_continue regCex aregEmpty preW postW "miss.z" [] true
     (by decide) rfl⟩

theorem countP_add_countP_not (p : α → Bool) :
    ∀ l : List α, l.countP p + l.countP (fun a => !p a) = l.length := by
  intro l
  induction l with
  | nil => rfl
  | cons a l ih =>
    by_cases hpa : p a
    · simp [List.countP_cons, hpa]
      omega
    · simp [List.countP_cons, Bool.eq_false_iff.mpr hpa]
      omega

theorem applyGo_counts (areg : AreaRegistry) (m st : Bool) :
    ∀ (xs : List (String × List (String × Yaml))) (reg : Registry)
      (calls : List (String × Updates)) (u s : Nat),
    (applyGo areg m st reg calls u s xs).error = none →
    (applyGo areg m st reg calls u s xs).updated
        = u + xs.countP (fun q => decide (q.1 ∈ reg.map Prod.fst)) ∧
    (applyGo areg m st reg calls u s xs).skipped
        = s + xs.countP (fun q => !decide (q.1 ∈ reg.map Prod.fst)) ∧
    (applyGo areg m st reg calls u s xs).calls.map Prod.fst
        = calls.map Prod.fst
          ++ (xs.filter (fun q => decide (q.1 ∈ reg.map Prod.fst))).map Prod.fst := by
  intro xs
  induction xs with
  | nil => intro reg calls u s _; simp [applyGo_nil]
  | cons x xs ih =>
    intro reg calls u s herr
    rcases x with ⟨eid, props⟩
    cases hget : Registry.async_get reg eid with
    | none =>
      have hmem : eid ∉ reg.map Prod.fst := (Registry.get_none_iff reg eid).mp hget
      cases st with
      | true =>
        rw [applyGo_cons_missing_strict hget] at herr
        simp at herr
      | false =>
        rw [applyGo_cons_missing_lenient hget] at herr ⊢
        obtain ⟨h1, h2, h3⟩ := ih reg calls u (s + 1) herr
        refine ⟨?_, ?_, ?_⟩
        · rw [h1]
          simp [List.countP_cons, hmem]
        · rw [h2]
          simp [List.countP_cons, hmem]
          omega
        · rw [h3]
          simp [List.filter_cons, hmem]
    | some e =>
      have hmem : eid ∈ reg.map Prod.fst := by
        by_contra hc
        have := (Registry.get_none_iff reg eid).mpr hc
        rw [hget] at this
        cases this
      rw [applyGo_cons_found hget] at herr ⊢
      have hkeys := Registry.keys_update reg eid (computeUpdates areg e props m)
      obtain ⟨h1, h2, h3⟩ := ih _ _ (u + 1) s herr
      simp only [hkeys] at h1 h2 h3
      refine ⟨?_, ?_, ?_⟩
      · rw [h1]
        simp [List.countP_cons, hmem]
        omega
      · rw [h2]
        simp [List.countP_cons, hmem]
      · rw [h3]
        simp [List.filter_cons, hmem, List.map_append, List.append_assoc]

/-- C10: when apply runs to completion without a strict abort, over an
entities mapping with distinct ids, it calls the registry mutator
exactly once for each id found in the registry (even when the property
set is empty and merge is true), updated equals the number of mutator
calls, and updated + skipped equals the number of entries. -/
theorem C10_counts_and_single_call (reg : Registry) (areg : AreaRegistry)
    (entities_map : List (String × List (String × Yaml))) (merge strict : Bool)
    (hnd : (entities_map.map Prod.fst).Nodup)
    (herr : (_apply_overrides reg areg entities_map merge strict).error = none) :
    (_apply_overrides reg areg entities_map merge strict).updated
        + (_apply_overrides reg areg entities_map merge strict).skipped
      = entities_map.length ∧
    (_apply_overrides reg areg entities_map merge strict).updated
      = (_apply_overrides reg areg entities_map merge strict).calls.length ∧
    ∀ q ∈ entities_map, q.1 ∈ reg.map Prod.fst →
      ((_apply_overrides reg areg entities_map merge strict).calls.map Prod.fst).count q.1
        = 1 := by
  obtain ⟨h1, h2, h3⟩ :=
    applyGo_counts areg merge strict entities_map reg [] 0 0 herr
  refine ⟨?_, ?_, ?_⟩
  · show (applyGo areg merge strict reg [] 0 0 entities_map).updated
        + (applyGo areg merge strict reg [] 0 0 entities_map).skipped = _
    rw [h1, h2]
    simpa using countP_add_countP_not _ entities_map
  · show (applyGo areg merge strict reg [] 0 0 entities_map).updated
        = (applyGo areg merge strict reg [] 0 0 entities_map).calls.length
    have hlen : (applyGo areg merge strict reg [] 0 0 entities_map).calls.length
        = ((applyGo areg merge strict reg [] 0 0 entities_map).calls.map Prod.fst).length :=
      (List.length_map _ _).symm
    rw [hlen, h3, h1]
    simp [List.countP_eq_length_filter]
  · intro q hq hqmem
    show ((applyGo areg merge strict reg [] 0 0 entities_map).calls.map Prod.fst).count q.1 = 1
    rw [h3]
    simp only [List.map_nil, List.nil_append]
    have hsub :
        List.Sublist
          ((entities_map.filter (fun r => decide (r.1 ∈ reg.map Prod.fst))).map Prod.fst)
          (entities_map.map Prod.fst) :=
      (List.filter_sublist _).map Prod.fst
    have hle : ((entities_map.filter
          (fun r => decide (r.1 ∈ reg.map Prod.fst))).map Prod.fst).count q.1
        ≤ (entities_map.map Prod.fst).count q.1 := hsub.count_le _
    have hone : (entities_map.map Prod.fst).count q.1 ≤ 1 :=
      List.nodup_iff_count_le_one.mp hnd q.1
    have hpos : 0 < ((entities_map.filter
          (fun r => decide (r.1 ∈ reg.map Prod.fst))).map Prod.fst).count q.1 := by
      apply List.count_pos_iff.mpr
      exact List.mem_map.mpr ⟨q, List.mem_filter.mpr ⟨hq, by simpa using hqmem⟩, rfl⟩
    omega

/-- Witness for C10: the count bookkeeping evaluated at a concrete
two-entry mapping with one unknown id. -/
theorem C10_witness :
    (([("light.x", []), ("miss.z", [])].map
        (Prod.fst (α := String) (β := List (String × Yaml)))).Nodup) ∧
    (_apply_overrides regCex aregEmpty [("light.x", []), ("miss.z", [])] true false).error
      = none ∧
    ((_apply_overrides regCex aregEmpty [("light.x", []), ("miss.z", [])] true false).updated
        + (_apply_overrides regCex aregEmpty [("light.x", []), ("miss.z", [])] true
            false).skipped
      = [("light.x", ([] : List (String × Yaml))), ("miss.z", [])].length ∧
    (_apply_overrides regCex aregEmpty [("light.x", []), ("miss.z", [])] true false).updated
      = (_apply_overrides regCex aregEmpty [("light.x", []), ("miss.z", [])] true
          false).calls.length ∧
    ∀ q ∈ [("light.x", ([] : List (String × Yaml))), ("miss.z", [])],
      q.1 ∈ regCex.map Prod.fst →
      ((_apply_overrides regCex aregEmpty [("light.x", []), ("miss.z", [])] true
          false).calls.map Prod.fst).count q.1 = 1) :=
  ⟨by decide, rfl,
   C10_counts_and_single_call regCex aregEmpty [("light.x", []), ("miss.z", [])] true false
     (by decide) rfl⟩

theorem hasKey_entryData_name (e : RegistryEntry) :
    hasKey (entryData e) "name" = e.name.truthy := by
  unfold entryData
  by_cases h1 : e.name.truthy <;> by_cases h2 : e.icon.truthy <;>
    by_cases h3 : e.hidden_by.isSome <;> by_cases h4 : e.disabled_by.isSome <;>
      simp [h1, h2, h3, h4, hasKey]

theorem hasKey_entryData_icon (e : RegistryEntry) :
    hasKey (entryData e) "icon" = e.icon.truthy := by
  unfold entryData
  by_cases h1 : e.name.truthy <;> by_cases h2 : e.icon.truthy <;>
    by_cases h3 : e.hidden_by.isSome <;> by_cases h4 : e.disabled_by.isSome <;>
      simp [h1, h2, h3, h4, hasKey]

theorem hasKey_entryData_hidden (e : RegistryEntry) :
    hasKey (entryData e) "hidden" = e.hidden_by.isSome := by
  unfold entryData
  by_cases h1 : e.name.truthy <;> by_cases h2 : e.icon.truthy <;>
    by_cases h3 : e.hidden_by.isSome <;> by_cases h4 : e.disabled_by.isSome <;>
      simp [h1, h2, h3, h4, hasKey]

theorem hasKey_entryData_disabled (e : RegistryEntry) :
    hasKey (entryData e) "disabled" = e.disabled_by.isSome := by
  unfold entryData
  by_cases h1 : e.name.truthy <;> by_cases h2 : e.icon.truthy <;>
    by_cases h3 : e.hidden_by.isSome <;> by_cases h4 : e.disabled_by.isSome <;>
      simp [h1, h2, h3, h4, hasKey]

theorem hasKey_entryData_area (e : RegistryEntry) :
    hasKey (entryData e) "area" = false := by
  unfold entryData
  by_cases h1 : e.name.truthy <;> by_cases h2 : e.icon.truthy <;>
    by_cases h3 : e.hidden_by.isSome <;> by_cases h4 : e.disabled_by.isSome <;>
      simp [h1, h2, h3, h4, hasKey]

theorem pyGet_entryData_name (e : RegistryEntry) (h1 : e.name.truthy = true) :
    pyGet (entryData e) "name" = e.name := by
  unfold entryData
  by_cases h2 : e.icon.truthy <;>
    by_cases h3 : e.hidden_by.isSome <;> by_cases h4 : e.disabled_by.isSome <;>
      simp [h1, h2, h3, h4, pyGet, lookupKV]

theorem pyGet_entryData_icon (e : RegistryEntry) (h2 : e.icon.truthy = true) :
    pyGet (entryData e) "icon" = e.icon := by
  unfold entryData
  by_cases h1 : e.name.truthy <;>
    by_cases h3 : e.hidden_by.isSome <;> by_cases h4 : e.disabled_by.isSome <;>
      simp [h1, h2, h3, h4, pyGet, lookupKV]

theorem pyGet_entryData_hidden (e : RegistryEntry) (h3 : e.hidden_by.isSome = true) :
    pyGet (entryData e) "hidden" = Yaml.boolV true := by
  unfold entryData
  by_cases h1 : e.name.truthy <;> by_cases h2 : e.icon.truthy <;>
    by_cases h4 : e.disabled_by.isSome <;>
      simp [h1, h2, h3, h4, pyGet, lookupKV]

theorem pyGet_entryData_disabled (e : RegistryEntry) (h4 : e.disabled_by.isSome = true) :
    pyGet (entryData e) "disabled" = Yaml.boolV true := by
  unfold entryData
  by_cases h1 : e.name.truthy <;> by_cases h2 : e.icon.truthy <;>
    by_cases h3 : e.hidden_by.isSome <;>
      simp [h1, h2, h3, h4, pyGet, lookupKV]

theorem roundtrip_updates_id (areg : AreaRegistry) (e : RegistryEntry)
    (hh : e.hidden_by = none ∨ e.hidden_by = some RegistryEntryHider.user)
    (hd : e.disabled_by = none ∨ e.disabled_by = some RegistryEntryDisabler.user) :
    RegistryEntry.applyUpdates e (computeUpdates areg e (entryData e) true) = e := by
  obtain ⟨n, i, o, hb, db, a⟩ := e
  unfold RegistryEntry.applyUpdates computeUpdates
  rw [hasKey_entryData_name, hasKey_entryData_icon, hasKey_entryData_hidden,
      hasKey_entryData_disabled, hasKey_entryData_area]
  by_cases h1 : n.truthy <;> by_cases h2 : i.truthy <;>
    rcases hh with hh | hh <;> rcases hd with hd | hd <;>
      simp_all [pyGet_entryData_name, pyGet_entryData_icon,
        pyGet_entryData_hidden, pyGet_entryData_disabled,
        show Yaml.truthy (Yaml.boolV true) = true from rfl]

theorem mem_serializePayload {reg : Registry} {doms : List String} {all : Bool}
    {eid : String} {y : Yaml} (hm : (eid, y) ∈ serializePayload reg doms all) :
    ∃ e, (eid, e) ∈ reg ∧ y = Yaml.mapV (entryData e) := by
  unfold serializePayload at hm
  rcases List.mem_filterMap.mp hm with ⟨⟨k, e⟩, hp, hpe⟩
  simp only at hpe
  split at hpe
  · exact absurd hpe (by simp)
  · split at hpe
    · simp only [Option.some.injEq, Prod.mk.injEq] at hpe
      obtain ⟨hk, hy⟩ := hpe
      subst hk
      exact ⟨e, hp, hy.symm⟩
    · exact absurd hpe (by simp)

theorem applyGo_roundtrip (areg : AreaRegistry) (st : Bool) (reg₀ : Registry)
    (hnd : (reg₀.map Prod.fst).Nodup) :
    ∀ (pl : List (String × List (String × Yaml)))
      (calls : List (String × Updates)) (u s : Nat),
    (∀ q ∈ pl, ∃ e, Registry.async_get reg₀ q.1 = some e ∧ q.2 = entryData e ∧
        (e.hidden_by = none ∨ e.hidden_by = some RegistryEntryHider.user) ∧
        (e.disabled_by = none ∨ e.disabled_by = some RegistryEntryDisabler.user)) →
    (applyGo areg true st reg₀ calls u s pl).registry = reg₀ := by
  intro pl
  induction pl with
  | nil => intro calls u s _; rfl
  | cons q pl ih =>
    intro calls u s hall
    obtain ⟨eid, props⟩ := q
    obtain ⟨e, hget, hprops, hh, hd⟩ := hall (eid, props) (List.mem_cons_self _ _)
    simp only at hprops
    subst hprops
    rw [applyGo_cons_found hget]
    have hupd : Registry.async_update_entity reg₀ eid
        (computeUpdates areg e (entryData e) true) = reg₀ := by
      apply Registry.update_eq_self
      intro p hp hk
      have hpe : p.2 = e := by
        have hg : Registry.async_get reg₀ eid = some p.2 := by
          apply Registry.get_some_of_mem reg₀ hnd
          have : p = (eid, p.2) := by
            obtain ⟨k, v⟩ := p
            simp only at hk
            rw [hk]
          rwa [this] at hp
        rw [hget] at hg
        exact (Option.some.injEq .. |>.mp hg).symm
      rw [hpe]
      exact roundtrip_updates_id areg e hh hd
    rw [hupd]
    apply ih
    intro q hq
    exact hall q (List.mem_cons_of_mem _ hq)

/-- C2 amended: for a registry with distinct ids in which every hidden or
disabled marker was set by the user (hidden_by and disabled_by are None
or USER), serializing and applying the resulting document's entities
mapping back with merge=true leaves the registry unchanged. -/
theorem C2_roundtrip_merge_id (reg : Registry) (areg : AreaRegistry)
    (include_domains : List String) (include_all : Bool) (ts : String) (strict : Bool)
    (hnd : (reg.map Prod.fst).Nodup)
    (hok : ∀ p ∈ reg,
      (p.2.hidden_by = none ∨ p.2.hidden_by = some RegistryEntryHider.user) ∧
      (p.2.disabled_by = none ∨ p.2.disabled_by = some RegistryEntryDisabler.user)) :
    (_apply_overrides reg areg
        (toEntitiesMap (_normalize_entities_block
          (Yaml.asMap (_serialize_registry reg include_domains include_all ts))))
        true strict).registry = reg := by
  have hnorm : _normalize_entities_block
      (Yaml.asMap (_serialize_registry reg include_domains include_all ts))
      = serializePayload reg include_domains include_all := by
    unfold _serialize_registry Yaml.asMap _normalize_entities_block lookupKV
    rw [List.find?_cons_of_neg _ (by simp), List.find?_cons_of_neg _ (by simp),
        List.find?_cons_of_pos _ (by simp)]
    rfl
  rw [hnorm]
  apply applyGo_roundtrip areg strict reg hnd
  intro q hq
  rcases List.mem_map.mp hq with ⟨⟨eid, y⟩, hmem, hqe⟩
  obtain ⟨e, hereg, hy⟩ := mem_serializePayload hmem
  subst hqe
  refine ⟨e, Registry.get_some_of_mem reg hnd hereg, ?_,
    (hok _ hereg).1, (hok _ hereg).2⟩
  simp only [hy, Yaml.asMap]

/-- Witness for C2: the round trip evaluated at a concrete registry with
a user-set name and user-set hidden marker. -/
theorem C2_witness :
    (regUser.map Prod.fst).Nodup ∧
    (∀ p ∈ regUser,
      (p.2.hidden_by = none ∨ p.2.hidden_by = some RegistryEntryHider.user) ∧
      (p.2.disabled_by = none ∨ p.2.disabled_by = some RegistryEntryDisabler.user)) ∧
    (_apply_overrides regUser aregEmpty
        (toEntitiesMap (_normalize_entities_block
          (Yaml.asMap (_serialize_registry regUser [] false "t"))))
        true false).registry = regUser :=
  ⟨by decide, by decide,
   C2_roundtrip_merge_id regUser aregEmpty [] false "t" false (by decide) (by decide)⟩

/-- C5 amended: normalize returns the value of the `entities` key when
that value is itself a mapping; otherwise (no `entities` key, or a
non-mapping value under it) the result holds exactly the entries of the
top-level mapping whose value is a mapping and whose key contains
exactly one domain separator. -/
theorem C5_normalize_shapes (blob : List (String × Yaml)) :
    (∀ m, lookupKV blob "entities" = some (Yaml.mapV m) →
      _normalize_entities_block blob = m) ∧
    ((∀ m, lookupKV blob "entities" ≠ some (Yaml.mapV m)) →
      ∀ (k : String) (v : Yaml),
        (k, v) ∈ _normalize_entities_block blob
          ↔ (k, v) ∈ blob ∧ v.isMap = true ∧ dotCount k = 1) := by
  constructor
  · intro m hm
    unfold _normalize_entities_block
    rw [hm]
  · intro hnm k v
    unfold _normalize_entities_block
    cases hl : lookupKV blob "entities" with
    | none =>
      simp [List.mem_filter]
    | some y =>
      cases y with
      | nullV => simp [List.mem_filter]
      | boolV b => simp [List.mem_filter]
      | intV n => simp [List.mem_filter]
      | strV s => simp [List.mem_filter]
      | listV xs => simp [List.mem_filter]
      | mapV m => exact absurd hl (hnm m)

/-- Witness for C5: the wrapper shape evaluated at a concrete document. -/
theorem C5_witness :
    lookupKV blobW "entities" = some (Yaml.mapV [("light.a", Yaml.mapV [])]) ∧
    _normalize_entities_block blobW = [("light.a", Yaml.mapV [])] :=
  ⟨rfl, (C5_normalize_shapes blobW).1 _ rfl⟩

theorem charListLe_total : ∀ as bs : List Char,
    charListLe as bs = true ∨ charListLe bs as = true := by
  intro as
  induction as with
  | nil => intro bs; left; rfl
  | cons a as ih =>
    intro bs
    cases bs with
    | nil => right; rfl
    | cons b bs =>
      rcases lt_trichotomy a b with h | h | h
      · left; simp [charListLe, h]
      · subst h
        rcases ih bs with hx | hx
        · left; simp [charListLe, lt_irrefl, hx]
        · right; simp [charListLe, lt_irrefl, hx]
      · right; simp [charListLe, h]

theorem charListLe_cons (a b : Char) (as bs : List Char) :
    charListLe (a :: as) (b :: bs)
      = if a < b then true else if b < a then false else charListLe as bs := rfl

theorem charListLe_cons_iff (a b : Char) (as bs : List Char) :
    charListLe (a :: as) (b :: bs) = true
      ↔ a < b ∨ (a = b ∧ charListLe as bs = true) := by
  rw [charListLe_cons]
  rcases lt_trichotomy a b with h | h | h
  · rw [if_pos h]; simp [h]
  · subst h; rw [if_neg (lt_irrefl a), if_neg (lt_irrefl a)]; simp
  · rw [if_neg (asymm h), if_pos h]; simp [asymm h, ne_of_gt h]

theorem charListLe_trans : ∀ as bs cs : List Char,
    charListLe as bs = true → charListLe bs cs = true → charListLe as cs = true := by
  intro as
  induction as with
  | nil => intro bs cs _ _; rfl
  | cons a as ih =>
    intro bs cs h1 h2
    cases bs with
    | nil => simp [charListLe] at h1
    | cons b bs =>
      cases cs with
      | nil => simp [charListLe] at h2
      | cons c cs =>
        rw [charListLe_cons_iff] at h1 h2 ⊢
        rcases h1 with h1 | ⟨rfl, h1⟩
        · rcases h2 with h2 | ⟨rfl, h2⟩
          · exact Or.inl (lt_trans h1 h2)
          · exact Or.inl h1
        · rcases h2 with h2 | ⟨rfl, h2⟩
          · exact Or.inl h2
          · exact Or.inr ⟨rfl, ih bs cs h1 h2⟩

theorem unlinkLoop_eq_filter (ok : String → Bool) :
    ∀ l : List String, unlinkLoop ok l = l.filter ok := by
  intro l
  induction l with
  | nil => rfl
  | cons f fs ih =>
    by_cases h : ok f <;> simp [unlinkLoop, List.filter_cons, h, ih]

instance instIsTotalPyDesc : IsTotal String (fun a b => pyStrLe b a = true) :=
  ⟨fun a b => charListLe_total b.toList a.toList⟩

instance instIsTransPyDesc : IsTrans String (fun a b => pyStrLe b a = true) :=
  ⟨fun _ b _ hab hbc => charListLe_trans _ b.toList _ hbc hab⟩

theorem filter_not_contains (takeL dropL : List String)
    (hdisj : ∀ a ∈ takeL, a ∉ dropL) :
    (takeL ++ dropL).filter (fun f => !(dropL.contains f)) = takeL := by
  rw [List.filter_append]
  have h1 : takeL.filter (fun f => !(dropL.contains f)) = takeL :=
    List.filter_eq_self.mpr (fun a ha => by simpa using hdisj a ha)
  have h2 : dropL.filter (fun f => !(dropL.contains f)) = [] := by
    apply List.filter_eq_nil_iff.mpr
    intro a ha
    simpa using ha
  rw [h1, h2, List.append_nil]

theorem unlinkLoopLog_eq (ok : String → Bool) :
    ∀ l : List String, unlinkLoopLog ok l = (unlinkLoop ok l, []) := by
  intro l
  induction l with
  | nil => rfl
  | cons f fs ih =>
    by_cases h : ok f <;> simp [unlinkLoopLog, unlinkLoop, h, ih]

theorem prune_backups_withLog_eq (names : List String) (ok : String → Bool)
    (keep : Int) :
    prune_backups_withLog names ok keep = (_prune_backups names ok keep, []) := by
  unfold prune_backups_withLog _prune_backups
  by_cases h : keep ≤ 0 <;> simp [h, unlinkLoopLog_eq]

/-- C6 counterexample: with keep = 2 and every `unlink` raising, one
deletion is attempted (of `overrides-1.yaml`, the name beyond the two
lexicographically greatest); the routine returns normally with nothing
deleted — the failure is swallowed — but the emitted log record list is
empty: the failure is not logged, contrary to the claim (the `except`
clause at lines 163-164 is a bare `pass`). -/
theorem C6_cex_failure_not_logged :
    (sortDescStr (namesW.filter globMatch)).drop keep02.toNat
      = ["overrides-1.yaml"] ∧
    prune_backups_withLog namesW (fun _ => false) keep02 = ([], []) :=
  ⟨rfl, rfl⟩

/-- C6 amended: with keep > 0 the pruning routine attempts to delete
exactly the backup-convention files beyond the keep lexicographically
greatest names (each name it keeps dominates each name it deletes), and
when every deletion succeeds the surviving convention-matching files
are exactly the keep greatest; with keep <= 0 nothing is deleted;
per-file deletion failures are swallowed — the routine returns normally
for every failure pattern, never propagating an error — but they are
not logged: the loop emits no log record for any input. -/
theorem C6_prune_backups (names : List String) (unlinkOk : String → Bool) (keep : Int)
    (hnd : names.Nodup) :
    (keep ≤ 0 → _prune_backups names unlinkOk keep = []) ∧
    prune_backups_withLog names unlinkOk keep
      = (_prune_backups names unlinkOk keep, []) ∧
    (0 < keep →
      _prune_backups names unlinkOk keep
        = ((sortDescStr (names.filter globMatch)).drop keep.toNat).filter unlinkOk ∧
      (∀ a ∈ (sortDescStr (names.filter globMatch)).take keep.toNat,
        ∀ b ∈ (sortDescStr (names.filter globMatch)).drop keep.toNat,
          pyStrLe b a = true) ∧
      ((∀ f ∈ (sortDescStr (names.filter globMatch)).drop keep.toNat, unlinkOk f = true) →
        ((names.filter globMatch).filter
            (fun f => !((_prune_backups names unlinkOk keep).contains f))).Perm
          ((sortDescStr (names.filter globMatch)).take keep.toNat))) := by
  refine ⟨?_, prune_backups_withLog_eq names unlinkOk keep, ?_⟩
  · intro hle
    unfold _prune_backups
    rw [if_pos hle]
  · intro hpos
    have hnle : ¬(keep ≤ 0) := not_le.mpr hpos
    have heq : _prune_backups names unlinkOk keep
        = ((sortDescStr (names.filter globMatch)).drop keep.toNat).filter unlinkOk := by
      unfold _prune_backups
      rw [if_neg hnle, unlinkLoop_eq_filter]
    refine ⟨heq, ?_, ?_⟩
    · have hsorted : (sortDescStr (names.filter globMatch)).Pairwise
          (fun a b => pyStrLe b a = true) :=
        List.sorted_insertionSort _ _
      have hsplit : ((sortDescStr (names.filter globMatch)).take keep.toNat
            ++ (sortDescStr (names.filter globMatch)).drop keep.toNat).Pairwise
          (fun a b => pyStrLe b a = true) := by
        rw [List.take_append_drop]
        exact hsorted
      exact (List.pairwise_append.mp hsplit).2.2
    · intro hall
      have heqd : _prune_backups names unlinkOk keep
          = (sortDescStr (names.filter globMatch)).drop keep.toNat := by
        rw [heq, List.filter_eq_self.mpr hall]
      rw [heqd]
      have hF : (names.filter globMatch).Nodup := hnd.filter _
      have hSF : (sortDescStr (names.filter globMatch)).Perm (names.filter globMatch) :=
        List.perm_insertionSort _ _
      have hndS : (sortDescStr (names.filter globMatch)).Nodup := hSF.nodup_iff.mpr hF
      have hdisj : ∀ a ∈ (sortDescStr (names.filter globMatch)).take keep.toNat,
          a ∉ (sortDescStr (names.filter globMatch)).drop keep.toNat := by
        have hthis := hndS
        rw [← List.take_append_drop keep.toNat
          (sortDescStr (names.filter globMatch))] at hthis
        have hd := (List.nodup_append.mp hthis).2.2
        intro a ha hb
        exact hd ha hb
      have hstep1 : ((names.filter globMatch).filter
          (fun f => !(((sortDescStr (names.filter globMatch)).drop
            keep.toNat).contains f))).Perm
          ((sortDescStr (names.filter globMatch)).filter
          (fun f => !(((sortDescStr (names.filter globMatch)).drop
            keep.toNat).contains f))) :=
        hSF.symm.filter _
      have hstep2 : ((sortDescStr (names.filter globMatch)).filter
          (fun f => !(((sortDescStr (names.filter globMatch)).drop
            keep.toNat).contains f)))
          = (sortDescStr (names.filter globMatch)).take keep.toNat := by
        have hc := congrArg (List.filter
          (fun f => !(((sortDescStr (names.filter globMatch)).drop
            keep.toNat).contains f)))
          (List.take_append_drop keep.toNat (sortDescStr (names.filter globMatch))).symm
        rw [hc]
        exact filter_not_contains _ _ hdisj
      exact hstep2 ▸ hstep1

/-- Witness for C6: rotation evaluated at three backup files (plus one
non-matching file) with keep = 2 and all deletions succeeding. -/
theorem C6_witness :
    (["overrides-1.yaml", "overrides-3.yaml", "overrides-2.yaml", "x.txt"] :
      List String).Nodup ∧
    ((keep02 ≤ 0 → _prune_backups namesW (fun _ => true) keep02 = []) ∧
    prune_backups_withLog namesW (fun _ => true) keep02
      = (_prune_backups namesW (fun _ => true) keep02, []) ∧
    (0 < keep02 →
      _prune_backups namesW (fun _ => true) keep02
        = ((sortDescStr (namesW.filter globMatch)).drop keep02.toNat).filter
            (fun _ => true) ∧
      (∀ a ∈ (sortDescStr (namesW.filter globMatch)).take keep02.toNat,
        ∀ b ∈ (sortDescStr (namesW.filter globMatch)).drop keep02.toNat,
          pyStrLe b a = true) ∧
      ((∀ f ∈ (sortDescStr (namesW.filter globMatch)).drop keep02.toNat,
          (fun (_ : String) => true) f = true) →
        ((namesW.filter globMatch).filter
            (fun f => !((_prune_backups namesW (fun _ => true) keep02).contains f))).Perm
          ((sortDescStr (namesW.filter globMatch)).take keep02.toNat)))) :=
  ⟨by decide, C6_prune_backups namesW (fun _ => true) keep02 (by decide)⟩

/-- C1 amended: in the entity_overrides integration, an export with a
pre-existing override file renames that file's content into the backup
directory (archive) before rotation and before the new write; the new
write never touches the backup directory; the whole export is exactly
archive, then rotate, then write; and when rotation's retention is not
exceeded the prior content is still present in a backup after the
export completes.  (The entity_metadata export does not have this
property — see the counterexample.) -/
theorem C1_export_overrides_preserves_prior (reg : Registry) (fs : OverridesFS)
    (ts : String) (unlinkOk : String → Bool) (max_backups : Nat) (c : Yaml)
    (hc : fs.exportFile = some c) :
    c ∈ (archiveStep fs ts).backups.map Prod.snd ∧
    export_overrides reg fs ts unlinkOk max_backups
      = writeStep (rotateStep (archiveStep fs ts) unlinkOk max_backups)
          (serialize_ov reg) ∧
    (∀ (fs2 : OverridesFS) (d : List (String × List (String × Yaml))),
      (writeStep fs2 d).backups = fs2.backups) ∧
    ((((archiveStep fs ts).backups.map Prod.fst).filter ovBackupMatch).length
        ≤ max_backups →
      c ∈ (export_overrides reg fs ts unlinkOk max_backups).backups.map Prod.snd) := by
  have harch : c ∈ (archiveStep fs ts).backups.map Prod.snd := by
    simp [archiveStep, hc]
  have hexp : export_overrides reg fs ts unlinkOk max_backups
      = writeStep (rotateStep (archiveStep fs ts) unlinkOk max_backups)
          (serialize_ov reg) := by
    unfold export_overrides
    rw [hc]
  have hwb : ∀ (fs2 : OverridesFS) (d : List (String × List (String × Yaml))),
      (writeStep fs2 d).backups = fs2.backups := by
    intro fs2 d
    unfold writeStep
    by_cases hd : d.isEmpty <;> simp [hd]
  refine ⟨harch, hexp, hwb, ?_⟩
  intro hlen
  rw [hexp, hwb]
  have hdel : ovRotateDeleted ((archiveStep fs ts).backups.map Prod.fst) unlinkOk
      max_backups = [] := by
    have hrfl : ovRotateDeleted ((archiveStep fs ts).backups.map Prod.fst) unlinkOk
        max_backups
        = unlinkLoop unlinkOk
            ((sortAscStr ((((archiveStep fs ts).backups.map Prod.fst)).filter
              ovBackupMatch)).take
              ((sortAscStr ((((archiveStep fs ts).backups.map Prod.fst)).filter
                ovBackupMatch)).length - max_backups)) := rfl
    have hlen' : (sortAscStr ((((archiveStep fs ts).backups.map Prod.fst)).filter
        ovBackupMatch)).length
        = ((((archiveStep fs ts).backups.map Prod.fst)).filter ovBackupMatch).length :=
      (List.perm_insertionSort _ _).length_eq
    rw [hrfl, hlen']
    rw [show ((((archiveStep fs ts).backups.map Prod.fst)).filter
        ovBackupMatch).length - max_backups = 0 from by omega]
    simp [unlinkLoop]
  have hrot : (rotateStep (archiveStep fs ts) unlinkOk max_backups).backups
      = (archiveStep fs ts).backups := by
    unfold rotateStep
    rw [hdel]
    simp
  rw [hrot]
  exact harch

/-- C8 amended: the two fatal conditions — a truthy non-mapping top-level
YAML document, and an unknown entity id under strict_entities — both
propagate as typed ValueError failures carrying human-readable
messages; they share the same exception kind (ValueError) and are
distinguishable only by their messages.  (Falsy non-mapping top levels
do not raise at all — see the counterexample.) -/
theorem C8_typed_failures (path : String) (y : Yaml) (reg : Registry)
    (areg : AreaRegistry) (eid : String) (props : List (String × Yaml))
    (rest : List (String × List (String × Yaml))) (merge : Bool)
    (hy : y.truthy = true) (hnm : y.isMap = false)
    (hmiss : Registry.async_get reg eid = none) :
    _read_yaml path (some y) = Except.error ⟨"ValueError", yamlNotMappingMsg path⟩ ∧
    (_apply_overrides reg areg ((eid, props) :: rest) merge true).error
      = some ⟨"ValueError", notFoundMsg eid⟩ ∧
    (PyErr.mk "ValueError" (yamlNotMappingMsg path)).kind
      = (PyErr.mk "ValueError" (notFoundMsg eid)).kind := by
  refine ⟨?_, ?_, rfl⟩
  · cases y <;> simp_all [_read_yaml, Yaml.truthy, Yaml.isMap]
  · show (applyGo areg merge true reg [] 0 0 ((eid, props) :: rest)).error = _
    rw [applyGo_cons_missing_strict hmiss]

/-- Witness for C1: the preservation property evaluated at a concrete
storage state with a prior export file and a registry with one
overridden entity. -/
theorem C1_witness :
    ofsW.exportFile = some (Yaml.strV "old") ∧
    (Yaml.strV "old" ∈ (archiveStep ofsW "20250101-000000").backups.map Prod.snd ∧
    export_overrides regUser ofsW "20250101-000000" (fun _ => true) 5
      = writeStep (rotateStep (archiveStep ofsW "20250101-000000") (fun _ => true) 5)
          (serialize_ov regUser) ∧
    (∀ (fs2 : OverridesFS) (d : List (String × List (String × Yaml))),
      (writeStep fs2 d).backups = fs2.backups) ∧
    ((((archiveStep ofsW "20250101-000000").backups.map Prod.fst).filter
        ovBackupMatch).length ≤ 5 →
      Yaml.strV "old"
        ∈ (export_overrides regUser ofsW "20250101-000000" (fun _ => true)
            5).backups.map Prod.snd)) :=
  ⟨rfl, C1_export_overrides_preserves_prior regUser ofsW "20250101-000000"
    (fun _ => true) 5 (Yaml.strV "old") rfl⟩

/-- Witness for C8: the two typed failures evaluated at a concrete
non-mapping document and a concrete unknown entity id. -/
theorem C8_witness :
    (Yaml.listV [Yaml.intV 1]).truthy = true ∧
    (Yaml.listV [Yaml.intV 1]).isMap = false ∧
    Registry.async_get [] "light.a" = none ∧
    (_read_yaml "cfg.yaml" (some (Yaml.listV [Yaml.intV 1]))
        = Except.error ⟨"ValueError", yamlNotMappingMsg "cfg.yaml"⟩ ∧
    (_apply_overrides [] aregEmpty [("light.a", [])] true true).error
      = some ⟨"ValueError", notFoundMsg "light.a"⟩ ∧
    (PyErr.mk "ValueError" (yamlNotMappingMsg "cfg.yaml")).kind
      = (PyErr.mk "ValueError" (notFoundMsg "light.a")).kind) :=
  ⟨rfl, rfl, rfl,
   C8_typed_failures "cfg.yaml" (Yaml.listV [Yaml.intV 1]) [] aregEmpty "light.a" [] []
     true rfl rfl rfl⟩
